import Mathlib

/-!
Shallow embedding of `golem/core/keysauth.py` (repository RafaelMri/golem).

Python bytes are modelled as `List Nat` (each element a byte value), Python
`str` as Lean `String` (lists of characters where length reasoning is needed).
External collaborators that the module consumes as black boxes
(`hashlib.sha256`, `golem.utils.decode_hex`, `golem_messages.cryptography`'s
`mk_privkey` / `privtopub` / `ecdsa_verify`, `Crypto.Random.random.randrange`)
are parameters of the model, gathered in the `Externals` structure or passed
explicitly.  Python exceptions are modelled with `Except`.
-/

namespace Golem

/-- A Python exception raised by one of the external primitives:
`AssertionError` is distinguished because `KeysAuth.verify` catches it
separately from the generic `Exception` case. -/
inductive PyExc where
  | assertionError : PyExc
  | otherExc : PyExc
deriving DecidableEq, Repr

/-- A Python value of type `Union[bytes, str]`, as accepted by
`KeysAuth.is_pubkey_difficult` and by the `public_key` argument of
`KeysAuth.verify`. -/
inductive PyBytesOrStr where
  | raw (bs : List Nat) : PyBytesOrStr
  | str (s : String) : PyBytesOrStr
deriving DecidableEq, Repr

/-- Python's `len` on a `Union[bytes, str]` value. -/
def PyBytesOrStr.pylen : PyBytesOrStr → Nat
  | .raw bs => bs.length
  | .str s => s.length

/-- The external primitives consumed by `keysauth.py` as black boxes.
`sha256digest` is `hashlib.sha256(seed).digest()` (a 32-byte digest);
`decode_hex` / `decode_hex_any` are `golem.utils.decode_hex` (the latter for
call sites that may pass bytes or str and may raise); `mk_privkey`,
`privtopub` and `ecdsa_verify` come from `golem_messages.cryptography`. -/
structure Externals where
  sha256digest : List Nat → List Nat
  decode_hex : String → Except PyExc (List Nat)
  decode_hex_any : PyBytesOrStr → Except PyExc (List Nat)
  mk_privkey : String → List Nat
  privtopub : List Nat → List Nat
  ecdsa_verify : PyBytesOrStr → List Nat → List Nat → Except PyExc Bool

/-- `int.from_bytes(bs, 'big')`: big-endian interpretation of a byte list. -/
def fromBytesBE (bs : List Nat) : Nat :=
  bs.foldl (fun a b => a * 256 + b) 0

/-- `sha2(seed)`: `int.from_bytes(sha256(seed).digest(), 'big')`.  The
source also accepts `str` seeds (encoding them first); all call sites
modelled here pass bytes, so the model takes bytes. -/
def sha2 (E : Externals) (seed : List Nat) : Nat :=
  fromBytesBE (E.sha256digest seed)

namespace KeysAuth

/-- `KeysAuth.PRIV_KEY_LEN`. -/
def PRIV_KEY_LEN : Nat := 32

/-- `KeysAuth.HEX_PUB_KEY_LEN`. -/
def HEX_PUB_KEY_LEN : Nat := 128

/-- `KeysAuth._count_max_hash(difficulty) = 2 << (256 - difficulty - 1)`. -/
def count_max_hash (difficulty : Nat) : Nat :=
  2 <<< (256 - difficulty - 1)

/-- The boolean comparison at the heart of `KeysAuth.is_pubkey_difficult`,
once the key is in bytes form: `sha2(pub_key) < _count_max_hash(difficulty)`. -/
def difficultB (E : Externals) (pub_key : List Nat) (difficulty : Nat) : Bool :=
  decide (sha2 E pub_key < count_max_hash difficulty)

/-- `KeysAuth.is_pubkey_difficult(pub_key, difficulty)`: a `str` key is first
decoded with `decode_hex` (which may raise, propagating), then the hash of the
byte key is compared against `_count_max_hash(difficulty)`. -/
def is_pubkey_difficult (E : Externals) (pub_key : PyBytesOrStr)
    (difficulty : Nat) : Except PyExc Bool := do
  let pub_key ← match pub_key with
    | .str s => E.decode_hex s
    | .raw bs => pure bs
  pure (difficultB E pub_key difficulty)

/-- `sha256digest` behaves like a real 32-byte digest: 32 bytes, each < 256.
This is the only property of SHA-256 the module relies on. -/
def DigestBounded (E : Externals) : Prop :=
  ∀ bs : List Nat, (E.sha256digest bs).length = 32 ∧ ∀ b ∈ E.sha256digest bs, b < 256

end KeysAuth

/-- A big-endian byte list is bounded by `256 ^ length`, generalised over the
accumulator of the fold. -/
theorem fromBytesBE_aux_lt (bs : List Nat) (hbs : ∀ b ∈ bs, b < 256) :
    ∀ a : Nat, bs.foldl (fun a b => a * 256 + b) a < (a + 1) * 256 ^ bs.length := by
  induction bs with
  | nil => intro a; simp
  | cons b bs ih =>
    intro a
    have hb : b < 256 := hbs b (List.mem_cons_self b bs)
    have hrest : ∀ x ∈ bs, x < 256 := fun x hx => hbs x (List.mem_cons_of_mem b hx)
    have h1 := ih hrest (a * 256 + b)
    have h2 : (a * 256 + b + 1) * 256 ^ bs.length ≤ (a + 1) * 256 ^ (bs.length + 1) := by
      have : a * 256 + b + 1 ≤ (a + 1) * 256 := by nlinarith
      calc (a * 256 + b + 1) * 256 ^ bs.length
          ≤ (a + 1) * 256 * 256 ^ bs.length := Nat.mul_le_mul_right _ this
        _ = (a + 1) * 256 ^ (bs.length + 1) := by ring
    simp only [List.foldl_cons, List.length_cons]
    exact lt_of_lt_of_le h1 h2

/-- A big-endian byte list is bounded by `256 ^ length`. -/
theorem fromBytesBE_lt (bs : List Nat) (hbs : ∀ b ∈ bs, b < 256) :
    fromBytesBE bs < 256 ^ bs.length := by
  have := fromBytesBE_aux_lt bs hbs 0
  simpa [fromBytesBE] using this

/-- For difficulty ≤ 255, `_count_max_hash` equals `2 ^ (256 - difficulty)`. -/
theorem count_max_hash_eq (d : Nat) (hd : d ≤ 255) :
    KeysAuth.count_max_hash d = 2 ^ (256 - d) := by
  unfold KeysAuth.count_max_hash
  rw [Nat.shiftLeft_eq]
  have h1 : 256 - d - 1 = 255 - d := by omega
  have h2 : 256 - d = (255 - d) + 1 := by omega
  rw [h1, h2, pow_succ]
  ring

/-- Under a well-formed digest, `sha2` is always below `2 ^ 256`, so
difficulty 0 accepts every key. -/
theorem sha2_lt_two_pow_256 (E : Externals) (hE : KeysAuth.DigestBounded E)
    (bs : List Nat) : sha2 E bs < 2 ^ 256 := by
  have hlen := (hE bs).1
  have hmem := (hE bs).2
  have := fromBytesBE_lt (E.sha256digest bs) hmem
  rw [hlen] at this
  calc sha2 E bs < 256 ^ 32 := this
    _ = 2 ^ 256 := by norm_num

/-- Difficulty 0 accepts every byte key. -/
theorem difficultB_zero (E : Externals) (hE : KeysAuth.DigestBounded E)
    (bs : List Nat) : KeysAuth.difficultB E bs 0 = true := by
  have h := sha2_lt_two_pow_256 E hE bs
  have h0 : KeysAuth.count_max_hash 0 = 2 ^ 256 := by
    simpa using count_max_hash_eq 0 (by norm_num)
  unfold KeysAuth.difficultB
  rw [h0]
  exact decide_eq_true h

/-- C1: for every difficulty `d ≤ 255` and every public key, given as raw
bytes or as a hex string (decoded first), `is_pubkey_difficult` returns `true`
iff the big-endian value of SHA-256 of the (decoded) key bytes is strictly
below `2 ^ (256 - d)`. -/
theorem golemC1_is_pubkey_difficult_spec (E : Externals) (d : Nat)
    (hd : d ≤ 255) :
    (∀ bs : List Nat,
      (KeysAuth.is_pubkey_difficult E (.raw bs) d = Except.ok true ↔
        sha2 E bs < 2 ^ (256 - d))) ∧
    (∀ (s : String) (bs : List Nat), E.decode_hex s = Except.ok bs →
      (KeysAuth.is_pubkey_difficult E (.str s) d = Except.ok true ↔
        sha2 E bs < 2 ^ (256 - d))) := by
  have hkey : ∀ bs : List Nat,
      (KeysAuth.difficultB E bs d = true ↔ sha2 E bs < 2 ^ (256 - d)) := by
    intro bs
    rw [KeysAuth.difficultB, count_max_hash_eq d hd]
    exact decide_eq_true_iff
  constructor
  · intro bs
    have : KeysAuth.is_pubkey_difficult E (.raw bs) d =
        Except.ok (KeysAuth.difficultB E bs d) := rfl
    rw [this]
    rw [← hkey bs]
    constructor
    · intro h; injection h
    · intro h; rw [h]
  · intro s bs hdec
    have : KeysAuth.is_pubkey_difficult E (.str s) d =
        (E.decode_hex s).bind (fun k => Except.ok (KeysAuth.difficultB E k d)) := rfl
    rw [this, hdec]
    simp only [Except.bind]
    rw [← hkey bs]
    constructor
    · intro h; injection h
    · intro h; rw [h]

/-- Concrete instantiation of the external primitives, used to evaluate the
model on concrete inputs. -/
def dummyExternals : Externals where
  sha256digest := fun _ => List.replicate 32 0
  decode_hex := fun _ => Except.ok []
  decode_hex_any := fun _ => Except.ok []
  mk_privkey := fun _ => List.replicate 32 1
  privtopub := fun _ => List.replicate 64 2
  ecdsa_verify := fun _ _ _ => Except.ok true

/-- The dummy digest is well-formed. -/
theorem dummyExternals_digestBounded : KeysAuth.DigestBounded dummyExternals := by
  intro bs
  constructor
  · simp [dummyExternals]
  · intro b hb
    simp only [dummyExternals, List.mem_replicate] at hb
    omega

/-- Witness for C1 at difficulty 0 and the empty raw key. -/
theorem golemC1_is_pubkey_difficult_spec_witness :
    KeysAuth.is_pubkey_difficult dummyExternals (.raw []) 0 = Except.ok true := by
  have h := (golemC1_is_pubkey_difficult_spec dummyExternals 0 (by norm_num)).1 []
  exact h.2 (by simpa using sha2_lt_two_pow_256 dummyExternals dummyExternals_digestBounded [])

/-- A file path, split as `os.path.split` would: the directory part and the
file-name part.  `_save_private_key` only ever recombines the two with
`os.path.join`, so the split form is the convenient representation.  Path
components are modelled as lists of characters (Python `str`). -/
structure Path where
  dir : List Char
  file : List Char
deriving DecidableEq, Repr

/-- The file system: a map from paths to file contents (bytes).  `none` means
no file exists at that path. -/
def FS : Type := Path → Option (List Nat)

/-- `open(p, 'wb').write(v)`: create or overwrite the file at `p`. -/
def FS.write (fs : FS) (p : Path) (v : List Nat) : FS :=
  fun q => if q = p then some v else fs q

/-- `os.rename(src, dst)`: the file moves from `src` to `dst`. -/
def FS.rename (fs : FS) (src dst : Path) : FS :=
  fun q => if q = dst then fs src else if q = src then none else fs q

/-- `os.path.exists(p)`. -/
def FS.pathExists (fs : FS) (p : Path) : Bool :=
  (fs p).isSome

namespace KeysAuth

/-- The backup file name built in `_save_private_key.backup_file`:
`filename.replace('.', '_') + '_' + date + '.bak'`, where `date` is
`datetime.now().strftime("%Y-%m-%d_%H-%M-%S_%f")` (kept abstract here). -/
def backup_name (filename : List Char) (date : List Char) : List Char :=
  filename.map (fun c => if c = '.' then '_' else c)
    ++ ['_'] ++ date ++ ['.', 'b', 'a', 'k']

/-- The path the backup is renamed to: same directory, backup file name. -/
def backup_path (p : Path) (date : List Char) : Path :=
  ⟨p.dir, backup_name p.file date⟩

/-- `KeysAuth._save_private_key(key, key_path)`: if a file already exists at
`key_path`, rename it to the backup path first; then write `key` to
`key_path`.  The timestamp `date` is passed in explicitly. -/
def save_private_key (key : List Nat) (key_path : Path) (date : List Char)
    (fs : FS) : FS :=
  let fs1 := if fs.pathExists key_path then
      fs.rename key_path (backup_path key_path date)
    else fs
  fs1.write key_path key

end KeysAuth

/-- The backup name is strictly longer than the original file name, so the
backup path never coincides with the key path. -/
theorem backup_path_ne (p : Path) (date : List Char) :
    KeysAuth.backup_path p date ≠ p := by
  intro h
  have hfile : KeysAuth.backup_name p.file date = p.file := congrArg Path.file h
  have hlen := congrArg List.length hfile
  simp only [KeysAuth.backup_name, List.length_append, List.length_map,
    List.length_cons, List.length_nil] at hlen
  omega

/-- C3: `_save_private_key` backs up exactly when a file already occupies the
path.  If no file exists there, the result is a plain write and the backup
path is untouched; if a file with contents `c` exists there, after saving the
backup path holds `c` and the key path holds the new key; no other path
changes. -/
theorem golemC3_save_private_key_spec (key : List Nat) (p : Path)
    (date : List Char) (fs : FS) :
    (fs.pathExists p = false →
      KeysAuth.save_private_key key p date fs = fs.write p key ∧
      KeysAuth.save_private_key key p date fs (KeysAuth.backup_path p date)
        = fs (KeysAuth.backup_path p date)) ∧
    (∀ c : List Nat, fs p = some c →
      KeysAuth.save_private_key key p date fs (KeysAuth.backup_path p date)
        = some c ∧
      KeysAuth.save_private_key key p date fs p = some key) ∧
    (∀ q : Path, q ≠ p → q ≠ KeysAuth.backup_path p date →
      KeysAuth.save_private_key key p date fs q = fs q) := by
  refine ⟨?_, ?_, ?_⟩
  · intro hnone
    unfold KeysAuth.save_private_key
    rw [hnone]
    simp only [Bool.false_eq_true, if_false]
    refine ⟨trivial, ?_⟩
    unfold FS.write
    rw [if_neg (backup_path_ne p date)]
  · intro c hc
    have hex : fs.pathExists p = true := by
      unfold FS.pathExists; rw [hc]; rfl
    unfold KeysAuth.save_private_key
    rw [hex]
    simp only [if_true]
    constructor
    · unfold FS.write FS.rename
      rw [if_neg (backup_path_ne p date), if_pos rfl, hc]
    · unfold FS.write
      rw [if_pos rfl]
  · intro q hq hqb
    unfold KeysAuth.save_private_key
    by_cases hex : fs.pathExists p = true
    · rw [hex]
      simp only [if_true]
      unfold FS.write FS.rename
      rw [if_neg hq, if_neg hqb, if_neg hq]
    · rw [Bool.not_eq_true] at hex
      rw [hex]
      simp only [Bool.false_eq_true, if_false]
      unfold FS.write
      rw [if_neg hq]

/-- An empty file system, for concrete evaluation. -/
def emptyFS : FS := fun _ => none

/-- A one-file file system, for concrete evaluation. -/
def singleFS (p : Path) (v : List Nat) : FS :=
  fun q => if q = p then some v else none

/-- Witness for C3: saving over an existing one-byte file at a concrete path
moves the old contents to the backup path and writes the new key. -/
theorem golemC3_save_private_key_spec_witness :
    KeysAuth.save_private_key [9] ⟨['d'], ['k', '.', 'p']⟩ ['T']
        (singleFS ⟨['d'], ['k', '.', 'p']⟩ [7])
        (KeysAuth.backup_path ⟨['d'], ['k', '.', 'p']⟩ ['T'])
      = some [7] ∧
    KeysAuth.save_private_key [9] ⟨['d'], ['k', '.', 'p']⟩ ['T']
        (singleFS ⟨['d'], ['k', '.', 'p']⟩ [7]) ⟨['d'], ['k', '.', 'p']⟩
      = some [9] :=
  (golemC3_save_private_key_spec [9] ⟨['d'], ['k', '.', 'p']⟩ ['T']
      (singleFS ⟨['d'], ['k', '.', 'p']⟩ [7])).2.1 [7] (by simp [singleFS])

/-- On raw byte keys, `is_pubkey_difficult` never raises and computes
`difficultB`; `difficultB` is thus the faithful shorthand at the call sites
that pass bytes (`_load_and_check_keys`, `_generate_keys`). -/
theorem is_pubkey_difficult_raw (E : Externals) (bs : List Nat) (d : Nat) :
    KeysAuth.is_pubkey_difficult E (.raw bs) d
      = Except.ok (KeysAuth.difficultB E bs d) := rfl

/-- The outcome of `open(private_key_path, 'rb')` followed by `read()`:
the file is absent (`FileNotFoundError`), some other `OSError` is raised
(e.g. a permission error), or the file's bytes are returned. -/
inductive ReadResult where
  | notFound : ReadResult
  | otherError : ReadResult
  | content (bs : List Nat) : ReadResult
deriving DecidableEq, Repr

namespace KeysAuth

/-- `KeysAuth._load_and_check_keys(private_key_path, difficulty)`, taking the
outcome of the file read as input.  Only `FileNotFoundError` is caught (result
`None`); any other read error propagates.  A key of length ≠ 32 or a key that
is not difficult enough also yields `None`; otherwise the loaded pair is
returned. -/
def load_and_check_keys (E : Externals) (r : ReadResult)
    (difficulty : Nat) : Except PyExc (Option (List Nat × List Nat)) :=
  match r with
  | .otherError => Except.error .otherExc
  | .notFound => Except.ok none
  | .content priv_key =>
    if ¬ priv_key.length = PRIV_KEY_LEN then Except.ok none
    else
      let pub_key := E.privtopub priv_key
      if ¬ difficultB E pub_key difficulty then Except.ok none
      else Except.ok (some (priv_key, pub_key))

end KeysAuth

/-- C2: `_load_and_check_keys` returns "absent" (`None`) in exactly three
cases — the file does not exist, the loaded bytes are not exactly 32 long, or
the derived public key fails the difficulty check — and otherwise returns the
pair of the loaded 32 bytes and the public key derived from them. -/
theorem golemC2_load_and_check_spec (E : Externals) (d : Nat)
    (r : ReadResult) :
    (KeysAuth.load_and_check_keys E r d = Except.ok none ↔
      (r = .notFound ∨
        ∃ bs, r = .content bs ∧
          (bs.length ≠ 32 ∨
            KeysAuth.difficultB E (E.privtopub bs) d = false))) ∧
    (∀ bs, r = .content bs → bs.length = 32 →
      KeysAuth.difficultB E (E.privtopub bs) d = true →
      KeysAuth.load_and_check_keys E r d
        = Except.ok (some (bs, E.privtopub bs))) := by
  constructor
  · cases r with
    | notFound => simp [KeysAuth.load_and_check_keys]
    | otherError => simp [KeysAuth.load_and_check_keys]
    | content bs =>
      by_cases hlen : bs.length = KeysAuth.PRIV_KEY_LEN
      · by_cases hdiff : KeysAuth.difficultB E (E.privtopub bs) d = true
        · simp only [KeysAuth.load_and_check_keys, KeysAuth.PRIV_KEY_LEN] at *
          simp [hlen, hdiff]
        · rw [Bool.not_eq_true] at hdiff
          simp only [KeysAuth.load_and_check_keys, KeysAuth.PRIV_KEY_LEN] at *
          simp [hlen, hdiff]
      · simp only [KeysAuth.load_and_check_keys, KeysAuth.PRIV_KEY_LEN] at *
        simp [hlen]
  · intro bs hr hlen hdiff
    subst hr
    simp [KeysAuth.load_and_check_keys, hlen, hdiff, KeysAuth.PRIV_KEY_LEN]

/-- Witness for C2: a well-formed 32-byte file under the concrete externals
at difficulty 0 loads successfully. -/
theorem golemC2_load_and_check_spec_witness :
    KeysAuth.load_and_check_keys dummyExternals (.content (List.replicate 32 5)) 0
      = Except.ok (some (List.replicate 32 5,
          dummyExternals.privtopub (List.replicate 32 5))) :=
  (golemC2_load_and_check_spec dummyExternals 0
      (.content (List.replicate 32 5))).2 (List.replicate 32 5) rfl
    (by simp)
    (difficultB_zero dummyExternals dummyExternals_digestBounded _)

namespace KeysAuth

/-- One iteration body of `KeysAuth._generate_keys`:
`priv_key = mk_privkey(str(get_random_float())); pub_key = privtopub(priv_key)`.
The seed string `str(get_random_float())` is supplied by the caller. -/
def generate_step (E : Externals) (s : String) : List Nat × List Nat :=
  let priv_key := E.mk_privkey s
  (priv_key, E.privtopub priv_key)

/-- `KeysAuth._generate_keys(difficulty)`: the `while True` retry loop.
`seeds k` is the seed string drawn at iteration `k` (the successive values of
`str(get_random_float())`); `fuel` bounds the number of iterations modelled
(the Python loop is unbounded — exhausting the fuel, result `none`, models
not having terminated yet).  On success the result carries the pair together
with the number of iterations executed. -/
def generate_keys (E : Externals) (seeds : Nat → String) (difficulty : Nat) :
    Nat → Nat → Option ((List Nat × List Nat) × Nat)
  | 0, _ => none
  | fuel + 1, k =>
    let p := generate_step E (seeds k)
    if difficultB E p.2 difficulty then some (p, k + 1)
    else generate_keys E seeds difficulty fuel (k + 1)

end KeysAuth

/-- Any pair returned by the generation loop satisfies the difficulty
predicate and has its public key derived from its private key. -/
theorem generate_keys_sound (E : Externals) (seeds : Nat → String) (d : Nat) :
    ∀ (fuel k : Nat) (p : List Nat × List Nat) (n : Nat),
      KeysAuth.generate_keys E seeds d fuel k = some (p, n) →
      KeysAuth.difficultB E p.2 d = true ∧ p.2 = E.privtopub p.1 := by
  intro fuel
  induction fuel with
  | zero => intro k p n h; exact absurd h (by simp [KeysAuth.generate_keys])
  | succ fuel ih =>
    intro k p n h
    rw [KeysAuth.generate_keys] at h
    by_cases hd : KeysAuth.difficultB E (KeysAuth.generate_step E (seeds k)).2 d = true
    · rw [if_pos hd] at h
      injection h with h'
      injection h' with h1 h2
      subst h1
      exact ⟨hd, rfl⟩
    · rw [if_neg hd] at h
      exact ih (k + 1) p n h

/-- At difficulty 0 the loop accepts the very first candidate: one
iteration. -/
theorem generate_keys_zero (E : Externals) (hE : KeysAuth.DigestBounded E)
    (seeds : Nat → String) (fuel k : Nat) :
    KeysAuth.generate_keys E seeds 0 (fuel + 1) k
      = some (KeysAuth.generate_step E (seeds k), k + 1) := by
  rw [KeysAuth.generate_keys]
  rw [if_pos (difficultB_zero E hE _)]

/-- C4: every pair `_generate_keys` returns satisfies the difficulty
predicate and has its public key derived (via `privtopub`) from its private
key; at difficulty 0 the loop terminates after exactly one iteration, for any
seed stream, because the threshold is always satisfied. -/
theorem golemC4_generate_keys_spec (E : Externals) (seeds : Nat → String) :
    (∀ (d fuel k : Nat) (p : List Nat × List Nat) (n : Nat),
      KeysAuth.generate_keys E seeds d fuel k = some (p, n) →
      KeysAuth.difficultB E p.2 d = true ∧ p.2 = E.privtopub p.1) ∧
    (KeysAuth.DigestBounded E → ∀ fuel k : Nat,
      KeysAuth.generate_keys E seeds 0 (fuel + 1) k
        = some (KeysAuth.generate_step E (seeds k), k + 1)) :=
  ⟨fun d fuel k p n h => generate_keys_sound E seeds d fuel k p n h,
   fun hE fuel k => generate_keys_zero E hE seeds fuel k⟩

/-- Witness for C4: with the concrete externals at difficulty 0 and one unit
of fuel, generation succeeds on the first iteration. -/
theorem golemC4_generate_keys_spec_witness :
    KeysAuth.generate_keys dummyExternals (fun _ => "s") 0 1 0
      = some (KeysAuth.generate_step dummyExternals "s", 1) :=
  (golemC4_generate_keys_spec dummyExternals (fun _ => "s")).2
    dummyExternals_digestBounded 0 0

/-- The sixteen lowercase hex digits, `'0'..'9'` then `'a'..'f'`, at
positions equal to their values. -/
def hexDigitChars : List Char :=
  (List.range 10).map (fun n => Char.ofNat (48 + n))
    ++ (List.range 6).map (fun n => Char.ofNat (97 + n))

/-- Modelled from the spec: `encode_hex` from `golem.utils` (a hex
encode/decode utility of this repository that is not under `src/`): the
lowercase hexadecimal encoding of a byte string, two hex digits per byte,
high nibble first. -/
def encode_hex : List Nat → List Char
  | [] => []
  | b :: bs =>
      hexDigitChars.getD (b / 16) '0' :: hexDigitChars.getD (b % 16) '0'
        :: encode_hex bs

/-- Hex encoding yields two characters per byte. -/
theorem encode_hex_length (bs : List Nat) :
    (encode_hex bs).length = 2 * bs.length := by
  induction bs with
  | nil => rfl
  | cons b bs ih =>
    simp only [encode_hex, List.length_cons, ih]
    ring

/-- `getD` on the hex digit table always yields a hex digit (the default
`'0'` is itself one). -/
theorem getD_hexDigitChars_mem (n : Nat) :
    hexDigitChars.getD n '0' ∈ hexDigitChars := by
  rcases Nat.lt_or_ge n hexDigitChars.length with h | h
  · rw [List.getD_eq_getElem _ _ h]
    exact List.getElem_mem h
  · rw [List.getD_eq_default _ _ h]
    decide

/-- Every character of a hex encoding is a hex digit. -/
theorem encode_hex_mem (bs : List Nat) :
    ∀ c ∈ encode_hex bs, c ∈ hexDigitChars := by
  induction bs with
  | nil => intro c hc; exact absurd hc (by simp [encode_hex])
  | cons b bs ih =>
    intro c hc
    simp only [encode_hex, List.mem_cons] at hc
    rcases hc with h | h | h
    · rw [h]; exact getD_hexDigitChars_mem _
    · rw [h]; exact getD_hexDigitChars_mem _
    · exact ih c h

/-- The state a fully constructed `KeysAuth` instance holds:
`_private_key`, `public_key`, `key_id = encode_hex(public_key)` and
`difficulty`.  The extra `generated` flag is a trace annotation, not a field
of the source object: it records which branch of `__init__` produced the
keys (`false` = loaded, `true` = generated). -/
structure KeysAuthState where
  private_key : List Nat
  public_key : List Nat
  key_id : List Char
  difficulty : Nat
  generated : Bool
deriving DecidableEq, Repr

/-- Reading a file out of the modelled file system never produces an
`otherError`; an arbitrary `ReadResult` is used where permission-style
failures are in play. -/
def readFS (fs : FS) (p : Path) : ReadResult :=
  match fs p with
  | some bs => ReadResult.content bs
  | none => ReadResult.notFound

namespace KeysAuth

/-- The load-or-generate core of `KeysAuth.__init__`, parametrised by the
outcome `r` of reading the key file.  If the load raises, construction
raises: no generation runs and no file is written (the error branch carries
no file-system update).  If the load yields `None`, a pair is generated and
its private key saved (`none` here models the unbounded generation loop not
having terminated within `fuel` iterations).  Otherwise the loaded pair is
adopted unchanged.  The result pairs the final file system with the
constructed state. -/
def init_from_read (E : Externals) (seeds : Nat → String) (fuel : Nat)
    (date : List Char) (fs : FS) (path : Path) (r : ReadResult)
    (difficulty : Nat) : Except PyExc (Option (FS × KeysAuthState)) := do
  let loaded ← load_and_check_keys E r difficulty
  match loaded with
  | some (priv_key, pub_key) =>
    pure (some (fs, ⟨priv_key, pub_key, encode_hex pub_key, difficulty, false⟩))
  | none =>
    match generate_keys E seeds difficulty fuel 0 with
    | none => pure none
    | some (p, _) =>
      pure (some (save_private_key p.1 path date fs,
        ⟨p.1, p.2, encode_hex p.2, difficulty, true⟩))

/-- `KeysAuth.__init__` over the modelled file system: read the key file at
`path`, then load-or-generate. -/
def init (E : Externals) (seeds : Nat → String) (fuel : Nat)
    (date : List Char) (fs : FS) (path : Path) (difficulty : Nat) :
    Except PyExc (Option (FS × KeysAuthState)) :=
  init_from_read E seeds fuel date fs path (readFS fs path) difficulty

end KeysAuth

/-- C9: during load only `FileNotFoundError` is treated as "absent"; any
other read error propagates out of `_load_and_check_keys` and out of
`__init__`.  The error branch of `init_from_read` returns before the
generation match and before any `save_private_key`, so an unreadable key
file triggers no generation and no write. -/
theorem golemC9_read_error_propagates (E : Externals) (seeds : Nat → String)
    (fuel : Nat) (date : List Char) (fs : FS) (path : Path) (d : Nat) :
    KeysAuth.load_and_check_keys E .otherError d = Except.error .otherExc ∧
    KeysAuth.load_and_check_keys E .notFound d = Except.ok none ∧
    KeysAuth.init_from_read E seeds fuel date fs path .otherError d
      = Except.error .otherExc :=
  ⟨rfl, rfl, rfl⟩

/-- Unfolding `init_from_read` on an absent file: generation and save run. -/
theorem init_from_read_notFound (E : Externals) (seeds : Nat → String)
    (fuel : Nat) (date : List Char) (fs : FS) (path : Path) (d : Nat) :
    KeysAuth.init_from_read E seeds fuel date fs path .notFound d
      = match KeysAuth.generate_keys E seeds d fuel 0 with
        | none => Except.ok none
        | some (p, _) =>
          Except.ok (some (KeysAuth.save_private_key p.1 path date fs,
            KeysAuthState.mk p.1 p.2 (encode_hex p.2) d true)) := rfl

/-- Unfolding `init_from_read` when the load succeeds: the loaded pair is
adopted, nothing is generated or written. -/
theorem init_from_read_loaded (E : Externals) (seeds : Nat → String)
    (fuel : Nat) (date : List Char) (fs : FS) (path : Path) (r : ReadResult)
    (d : Nat) (priv pub : List Nat)
    (h : KeysAuth.load_and_check_keys E r d = Except.ok (some (priv, pub))) :
    KeysAuth.init_from_read E seeds fuel date fs path r d
      = Except.ok (some (fs,
          KeysAuthState.mk priv pub (encode_hex pub) d false)) := by
  unfold KeysAuth.init_from_read
  rw [h]
  rfl

/-- Unfolding `_load_and_check_keys` on a well-formed, difficult-enough
file. -/
theorem load_and_check_keys_content (E : Externals) (bs : List Nat) (d : Nat)
    (hlen : bs.length = KeysAuth.PRIV_KEY_LEN)
    (hdiff : KeysAuth.difficultB E (E.privtopub bs) d = true) :
    KeysAuth.load_and_check_keys E (.content bs) d
      = Except.ok (some (bs, E.privtopub bs)) := by
  simp only [KeysAuth.load_and_check_keys]
  rw [if_neg (not_not_intro hlen), if_neg (not_not_intro hdiff)]

/-- C5: constructing at difficulty 0 over a fresh path generates once, writes
exactly the 32-byte private key at the path (touching no other path, hence
creating no backup), and yields a `key_id` of 128 hex characters;
reconstructing over the resulting file system loads the identical pair,
leaves the file system untouched, and does not generate. -/
theorem golemC5_construct_twice (E : Externals) (seeds : Nat → String)
    (fuel : Nat) (date date2 : List Char) (fs : FS) (path : Path)
    (hfresh : fs path = none) (hE : KeysAuth.DigestBounded E)
    (hpriv : ∀ s, (E.mk_privkey s).length = 32)
    (hpub : ∀ bs, (E.privtopub bs).length = 64) :
    KeysAuth.init E seeds (fuel + 1) date fs path 0
      = Except.ok (some (FS.write fs path (E.mk_privkey (seeds 0)),
          ⟨E.mk_privkey (seeds 0), E.privtopub (E.mk_privkey (seeds 0)),
            encode_hex (E.privtopub (E.mk_privkey (seeds 0))), 0, true⟩)) ∧
    FS.write fs path (E.mk_privkey (seeds 0)) path
      = some (E.mk_privkey (seeds 0)) ∧
    (E.mk_privkey (seeds 0)).length = 32 ∧
    (encode_hex (E.privtopub (E.mk_privkey (seeds 0)))).length = 128 ∧
    (∀ c ∈ encode_hex (E.privtopub (E.mk_privkey (seeds 0))), c ∈ hexDigitChars) ∧
    (∀ q, q ≠ path → FS.write fs path (E.mk_privkey (seeds 0)) q = fs q) ∧
    KeysAuth.init E seeds (fuel + 1) date2
        (FS.write fs path (E.mk_privkey (seeds 0))) path 0
      = Except.ok (some (FS.write fs path (E.mk_privkey (seeds 0)),
          ⟨E.mk_privkey (seeds 0), E.privtopub (E.mk_privkey (seeds 0)),
            encode_hex (E.privtopub (E.mk_privkey (seeds 0))), 0, false⟩)) := by
  set priv := E.mk_privkey (seeds 0) with hprivdef
  set pub := E.privtopub priv with hpubdef
  have hread1 : readFS fs path = ReadResult.notFound := by
    unfold readFS; rw [hfresh]
  have hgen := generate_keys_zero E hE seeds fuel 0
  have hnosave : KeysAuth.save_private_key priv path date fs
      = FS.write fs path priv := by
    unfold KeysAuth.save_private_key
    have hne : fs.pathExists path = false := by
      unfold FS.pathExists; rw [hfresh]; rfl
    rw [hne]
    simp
  have hlen32 : priv.length = KeysAuth.PRIV_KEY_LEN := by
    rw [hprivdef, hpriv (seeds 0)]
    rfl
  have hfirst : KeysAuth.init E seeds (fuel + 1) date fs path 0
      = Except.ok (some (FS.write fs path priv,
          ⟨priv, pub, encode_hex pub, 0, true⟩)) := by
    unfold KeysAuth.init
    rw [hread1, init_from_read_notFound, hgen]
    show Except.ok (some (KeysAuth.save_private_key priv path date fs,
        KeysAuthState.mk priv pub (encode_hex pub) 0 true))
      = Except.ok (some (FS.write fs path priv,
        KeysAuthState.mk priv pub (encode_hex pub) 0 true))
    rw [hnosave]
  refine ⟨hfirst, ?_, hpriv (seeds 0), ?_, encode_hex_mem pub, ?_, ?_⟩
  · unfold FS.write; rw [if_pos rfl]
  · rw [encode_hex_length, hpub priv]
  · intro q hq
    unfold FS.write
    rw [if_neg hq]
  · have hread2 : readFS (FS.write fs path priv) path
        = ReadResult.content priv := by
      unfold readFS FS.write
      rw [if_pos rfl]
    unfold KeysAuth.init
    rw [hread2]
    exact init_from_read_loaded E seeds (fuel + 1) date2 _ path _ 0 priv pub
      (load_and_check_keys_content E priv 0 hlen32
        (difficultB_zero E hE (E.privtopub priv)))

/-- Witness for C5: the two-construction scenario evaluated with the
concrete externals over the empty file system. -/
theorem golemC5_construct_twice_witness :
    KeysAuth.init dummyExternals (fun _ => "s") 1 ['a'] emptyFS ⟨['d'], ['k']⟩ 0
      = Except.ok (some (FS.write emptyFS ⟨['d'], ['k']⟩ (List.replicate 32 1),
          ⟨List.replicate 32 1, List.replicate 64 2,
            encode_hex (List.replicate 64 2), 0, true⟩)) ∧
    (encode_hex (List.replicate 64 2)).length = 128 :=
  have h := golemC5_construct_twice dummyExternals (fun _ => "s") 0 ['a'] ['b']
    emptyFS ⟨['d'], ['k']⟩ rfl dummyExternals_digestBounded
    (fun _ => by simp [dummyExternals])
    (fun _ => by simp [dummyExternals])
  ⟨h.1, h.2.2.2.1⟩

namespace KeysAuth

/-- The body of the `try:` block in `KeysAuth.verify`: default the key to the
instance's own public key, hex-decode it when its length is 128 (the decode
itself may raise, inside the `try:`), then call `ecdsa_verify`. -/
def verify_body (E : Externals) (self_public_key : List Nat)
    (sig data : List Nat) (public_key : Option PyBytesOrStr) :
    Except PyExc Bool := do
  let public_key := public_key.getD (.raw self_public_key)
  let public_key ←
    if public_key.pylen = HEX_PUB_KEY_LEN then
      (E.decode_hex_any public_key).map PyBytesOrStr.raw
    else pure public_key
  E.ecdsa_verify public_key sig data

/-- `KeysAuth.verify(sig, data, public_key)`: both `except` clauses
(`AssertionError` for a wrong key format, then any other `Exception`) log and
fall through to `return False`, so the function is total and boolean. -/
def verify (E : Externals) (self_public_key : List Nat)
    (sig data : List Nat) (public_key : Option PyBytesOrStr) : Bool :=
  match verify_body E self_public_key sig data public_key with
  | .ok b => b
  | .error _ => false

end KeysAuth

/-- C6: `verify` is a total boolean function of its inputs — whatever
exception the key decoding or the verification primitive raises is absorbed —
and it returns `true` exactly when the try-block runs to completion with
result `true`; every raised exception (and a completed run with result
`false`) yields `false`. -/
theorem golemC6_verify_total (E : Externals) (self_public_key : List Nat)
    (sig data : List Nat) (public_key : Option PyBytesOrStr) :
    (KeysAuth.verify E self_public_key sig data public_key = true ↔
      KeysAuth.verify_body E self_public_key sig data public_key
        = Except.ok true) ∧
    (∀ e : PyExc,
      KeysAuth.verify_body E self_public_key sig data public_key
          = Except.error e →
      KeysAuth.verify E self_public_key sig data public_key = false) := by
  have hv : ∀ r, KeysAuth.verify_body E self_public_key sig data public_key = r →
      KeysAuth.verify E self_public_key sig data public_key
        = (match r with | .ok b => b | .error _ => false) := by
    intro r hr
    unfold KeysAuth.verify
    rw [hr]
  refine ⟨?_, ?_⟩
  · cases h : KeysAuth.verify_body E self_public_key sig data public_key with
    | ok b =>
      rw [hv _ h]
      cases b <;> simp [h]
    | error e =>
      rw [hv _ h]
      simp [h]
  · intro e he
    rw [hv _ he]

/-- Witness for C6: with a raising key decoder and a malformed 128-byte key
argument, `verify` returns `false`. -/
theorem golemC6_verify_total_witness :
    KeysAuth.verify
      { dummyExternals with
          decode_hex_any := fun _ => Except.error .assertionError }
      [] [] [] (some (.raw (List.replicate 128 0))) = false :=
  (golemC6_verify_total
      { dummyExternals with
          decode_hex_any := fun _ => Except.error .assertionError }
      [] [] [] (some (.raw (List.replicate 128 0)))).2
    .assertionError (by
      simp [KeysAuth.verify_body, PyBytesOrStr.pylen, KeysAuth.HEX_PUB_KEY_LEN,
        Except.map]
      rfl)

/-- `sys.maxsize` on a 64-bit CPython. -/
def maxsize : Int := 2 ^ 63 - 1

/-- `get_random(min_value, max_value)`: `max_value` defaults to
`sys.maxsize`; `min_value > max_value` raises `ArithmeticError` (modelled as
`Except.error ()`); `min_value == max_value` returns `min_value` directly;
otherwise the result is `randrange(min_value, max_value)`, the external
CSPRNG primitive, passed in as a function. -/
def get_random (randrange : Int → Int → Int) (min_value : Int)
    (max_value : Option Int) : Except Unit Int :=
  let max_value := max_value.getD maxsize
  if min_value > max_value then Except.error ()
  else if min_value = max_value then Except.ok min_value
  else Except.ok (randrange min_value max_value)

/-- The contract of `Crypto.Random.random.randrange(a, b)`: a uniform draw
from `[a, b)` — the upper bound is excluded, as with Python's built-in
`randrange`. -/
def RandrangeSpec (randrange : Int → Int → Int) : Prop :=
  ∀ a b : Int, a < b → a ≤ randrange a b ∧ randrange a b < b

/-- C7 (code bug): at `min_value = 0`, `max_value = 1` the code always
returns `0` — `randrange` excludes its upper bound, so `max_value` is never
returned, contradicting the claimed (and docstring's) inclusive range
`[min_value, max_value]`.  The error case (`min > max`) and the
`min == max` shortcut behave as claimed. -/
theorem golemC7_get_random_max_excluded (randrange : Int → Int → Int)
    (h : RandrangeSpec randrange) :
    get_random randrange 0 (some 1) = Except.ok 0 ∧
    (∀ lo hi : Int, hi < lo → get_random randrange lo (some hi)
      = Except.error ()) ∧
    (∀ v : Int, get_random randrange v (some v) = Except.ok v) := by
  refine ⟨?_, ?_, ?_⟩
  · have h01 := h 0 1 (by norm_num)
    have hz : randrange 0 1 = 0 := by omega
    unfold get_random
    simp [hz]
  · intro lo hi hlt
    unfold get_random
    simp only [Option.getD_some]
    rw [if_pos hlt]
  · intro v
    unfold get_random
    simp

/-- Witness for C7 at the concrete `randrange` returning its lower bound. -/
theorem golemC7_get_random_max_excluded_witness :
    get_random (fun a _ => a) 0 (some 1) = Except.ok 0 ∧
    get_random (fun a _ => a) 5 (some 3) = Except.error () ∧
    get_random (fun a _ => a) 4 (some 4) = Except.ok 4 :=
  have h := golemC7_get_random_max_excluded (fun a _ => a)
    (fun a b hab => ⟨le_refl a, hab⟩)
  ⟨h.1, h.2.1 5 3 (by norm_num), h.2.2 4⟩

/-- `len(str(n))` for a non-negative integer: the number of decimal digits
(one digit for `0`). -/
def digit_count (n : Nat) : Nat :=
  if n = 0 then 1 else (Nat.digits 10 n).length

/-- The value `get_random_float` builds from the drawn integer:
`float(result - 1) / float(10 ** len(str(result)))`.  Exact rational
arithmetic stands in for Python floats. -/
def float_of (result : Int) : ℚ :=
  ((result : ℚ) - 1) / ((10 : ℚ) ^ digit_count result.toNat)

/-- `get_random_float()`: `result = get_random(min_value=2)` (so `max_value`
defaults to `sys.maxsize`), then the quotient above. -/
def get_random_float (randrange : Int → Int → Int) : Except Unit ℚ :=
  (get_random randrange 2 none).map float_of

/-- A positive integer is smaller than `10 ^ (its digit count)`. -/
theorem lt_ten_pow_digit_count (n : Nat) : n < 10 ^ digit_count n := by
  unfold digit_count
  by_cases h : n = 0
  · rw [if_pos h, h]; norm_num
  · rw [if_neg h]
    exact Nat.lt_base_pow_length_digits (by norm_num)

/-- The value formula lands strictly inside `(0, 1)` whenever the drawn
integer is at least 2. -/
theorem float_of_mem_Ioo (result : Int) (h2 : 2 ≤ result) :
    0 < float_of result ∧ float_of result < 1 := by
  unfold float_of
  have hpow : (0 : ℚ) < (10 : ℚ) ^ digit_count result.toNat := by positivity
  have hnum : (0 : ℚ) < (result : ℚ) - 1 := by
    have : (2 : ℚ) ≤ (result : ℚ) := by exact_mod_cast h2
    linarith
  constructor
  · positivity
  · rw [div_lt_one hpow]
    have hlt : result.toNat < 10 ^ digit_count result.toNat :=
      lt_ten_pow_digit_count result.toNat
    have hres : (result.toNat : Int) = result := Int.toNat_of_nonneg (by omega)
    have hcast : (result : ℚ) = (result.toNat : ℚ) := by exact_mod_cast hres.symm
    rw [hcast]
    have : (result.toNat : ℚ) < ((10 ^ digit_count result.toNat : Nat) : ℚ) := by
      exact_mod_cast hlt
    push_cast at this
    linarith

/-- C8: `get_random_float` computes `r = get_random(min_value=2)` and returns
exactly `(r - 1) / 10 ^ digit_count(r)`; for every `r ≥ 2` that value lies
strictly between 0 and 1 — in particular the value actually returned does,
since the drawn `r` satisfies `2 ≤ r`. -/
theorem golemC8_get_random_float_spec (randrange : Int → Int → Int)
    (h : RandrangeSpec randrange) :
    get_random_float randrange = Except.ok (float_of (randrange 2 maxsize)) ∧
    2 ≤ randrange 2 maxsize ∧
    (∀ result : Int, 2 ≤ result →
      0 < float_of result ∧ float_of result < 1) := by
  have hmax : (2 : Int) < maxsize := by unfold maxsize; norm_num
  have hr := h 2 maxsize hmax
  refine ⟨?_, hr.1, fun result h2 => float_of_mem_Ioo result h2⟩
  unfold get_random_float get_random
  simp only [Option.getD_none]
  rw [if_neg (by omega), if_neg (by omega)]
  rfl

/-- Witness for C8 at the concrete `randrange` returning its lower bound:
the drawn integer is 2 and the returned value is `1/10 ∈ (0, 1)`. -/
theorem golemC8_get_random_float_spec_witness :
    get_random_float (fun a _ => a) = Except.ok (float_of 2) ∧
    0 < float_of 2 ∧ float_of 2 < 1 :=
  have h := golemC8_get_random_float_spec (fun a _ => a)
    (fun a b hab => ⟨le_refl a, hab⟩)
  ⟨h.1, h.2.2 2 (by norm_num)⟩

/-- Python truthiness of an `Optional[str]`: `None` and the empty string are
falsy. -/
def py_falsy : Option String → Bool
  | none => true
  | some s => decide (s = "")

namespace KeysAuth

/-- `KeysAuth.get_difficulty(key_id)`: `if not key_id: return
self.difficulty`, else `256 - math.log2(sha2(decode_hex(key_id)))`.  The
non-falsy branch chains `decode_hex` (which raises on malformed hex) with a
real-valued logarithm from the math library; that whole branch is abstracted
as `compute`, and the result type as `α`, since the claim under study
concerns only which branch runs. -/
def get_difficulty {α : Type} (compute : String → Except PyExc α)
    (self_difficulty : α) (key_id : Option String) : Except PyExc α :=
  if py_falsy key_id then Except.ok self_difficulty
  else compute (key_id.getD "")

end KeysAuth

/-- C10: `get_difficulty` with the empty string returns the instance's own
cached difficulty exactly as when `key_id` is omitted — the branch tests
falsiness, so no hex decoding runs and no decode error can surface (the
result is `ok` for every `compute`, even an always-raising one); any
non-empty string goes to the computing branch. -/
theorem golemC10_get_difficulty_empty {α : Type}
    (compute : String → Except PyExc α) (d : α) :
    KeysAuth.get_difficulty compute d (some "") = Except.ok d ∧
    KeysAuth.get_difficulty compute d none = Except.ok d ∧
    (∀ s : String, s ≠ "" →
      KeysAuth.get_difficulty compute d (some s) = compute s) := by
  refine ⟨rfl, rfl, ?_⟩
  intro s hs
  unfold KeysAuth.get_difficulty
  rw [if_neg (by simp [py_falsy, hs])]
  rfl

/-- Witness for C10 with an always-raising `compute`: the empty string and
`None` return the cached difficulty; a non-empty string hits `compute`. -/
theorem golemC10_get_difficulty_empty_witness :
    KeysAuth.get_difficulty (fun _ => (Except.error .otherExc : Except PyExc Nat))
      7 (some "") = Except.ok 7 ∧
    KeysAuth.get_difficulty (fun _ => (Except.error .otherExc : Except PyExc Nat))
      7 (some "ab") = Except.error .otherExc :=
  have h := golemC10_get_difficulty_empty
    (fun _ => (Except.error .otherExc : Except PyExc Nat)) 7
  ⟨h.1, h.2.2 "ab" (by decide)⟩

end Golem
